import Mathlib

/-! The discussion polling loop of `static/js/main.js`.

A shallow embedding of `startChatPolling` (main.js, lines 36-70): the two
script globals `chatPollInterval` and `lastMsgId`, the interval timers of the
page, the element with id `chatMessages`, and the promise chain that each
timer tick runs on the poll response.

JavaScript runs every callback to completion, so the processing of one poll
response is one atomic step of the model.  What the browser supplies (the
render function `renderMsg`, the HTML fragment parser behind
`insertAdjacentHTML`, the layout value `scrollHeight`, the handle returned by
`setInterval`) is taken as a parameter or modelled as documented below.
-/

namespace ChatPolling

/-! ## Data model -/

/-- A message object of a poll response: an integer `id` and the fields the
render function reads. -/
structure Msg where
  id : Int
  payload : String
deriving DecidableEq, Repr

/-- A DOM node below the display surface: a text node, or an element with its
class list and its children in document order. -/
inductive Node where
  | text (content : String)
  | element (classList : List String) (children : List Node)
deriving Repr

/-- The element with id `chatMessages`: its children, whether it is still in
the document, and its scroll offset. -/
structure Element where
  children : List Node
  attached : Bool
  scrollTop : Nat
deriving Repr

/-- An active interval timer: the handle `setInterval` returned, the
`channelId` its callback closed over, and its period in milliseconds. -/
structure Timer where
  handle : Nat
  channelId : String
  delay : Nat
deriving DecidableEq, Repr

/-- The page state the polling code reads and writes.  `insertLog` is a
history variable: the messages whose fragment `insertAdjacentHTML` received,
with that fragment, in call order. -/
structure State where
  chatPollInterval : Option Nat
  lastMsgId : Int
  chatMessages : Option Element
  timers : List Timer
  nextHandle : Nat
  console : List String
  insertLog : List (Msg × String)
deriving Repr

/-- What the browser supplies to one tick: the global `renderMsg` when it is a
function (it returns a fragment or throws), the fragment parser used by
`insertAdjacentHTML`, and the layout value `scrollHeight`. -/
structure Env where
  renderMsg : Option (Msg → Except String String)
  parseHTML : String → List Node
  scrollHeight : Element → Nat

/-- How the request of a tick settles: `fetch` rejects, `res.json()` rejects,
or the body parses to an array of messages. -/
inductive Response where
  | fetchRejected (err : String)
  | jsonRejected (err : String)
  | ok (messages : List Msg)
deriving Repr

/-! ## The spinner lookup (main.js, lines 52-53) -/

/-- Outcome of looking for the parent of the first `.spinner` descendant in a
list of children: no such descendant, the first one is a direct child (its
parent is the element searched), or its parent was a descendant and has been
taken out of the children. -/
inductive SpinnerSearch where
  | absent
  | child
  | removed (children : List Node)
deriving Repr

/-- Outcome of the same lookup in one node and its descendants: no element of
class `spinner`, the node is the first one itself, the node is the parent of
the first one, or the parent was a descendant and the node is left without
it. -/
inductive NodeSearch where
  | absent
  | self
  | parent
  | inside (node : Node)
deriving Repr

mutual
/-- The lookup in one node: the node first, then its children in document
order. -/
def spinnerInNode : Node → NodeSearch
  | .text _ => .absent
  | .element classList children =>
    if classList.contains "spinner" then .self
    else
      match removeSpinnerParent children with
      | .absent => .absent
      | .child => .parent
      | .removed children1 => .inside (.element classList children1)
/-- Walk the children in document order (a node, then its descendants, then
its later siblings) to the first element of class `spinner`, and remove that
element's parent when the parent lies inside the list. -/
def removeSpinnerParent : List Node → SpinnerSearch
  | [] => .absent
  | node :: rest =>
    match spinnerInNode node with
    | .self => .child
    | .parent => .removed rest
    | .inside node1 => .removed (node1 :: rest)
    | .absent =>
      match removeSpinnerParent rest with
      | .absent => .absent
      | .child => .child
      | .removed rest1 => .removed (node :: rest1)
end

/-- The statements `chatMessages.querySelector('.spinner')?.parentElement` and
`if (spinner) spinner.remove()`: the parent of the first spinner leaves its own
parent; when that parent is the display surface itself, the surface leaves the
document and keeps its children. -/
def removeSpinner (el : Element) : Element :=
  match removeSpinnerParent el.children with
  | .absent => el
  | .child => { el with attached := false }
  | .removed children => { el with children := children }

/-! ## One poll response (main.js, lines 44-68) -/

/-- The call `document.getElementById('chatMessages')`: only an element that is
in the document is found. -/
def getElementById (s : State) : Option Element :=
  match s.chatMessages with
  | some el => if el.attached then some el else none
  | none => none

/-- The call `chatMessages.insertAdjacentHTML('beforeend', msgHtml)` for the
fragment rendered from `msg`: the parsed nodes become the last children. -/
def insertAdjacentHTML (env : Env) (s : State) (msg : Msg) (msgHtml : String) : State :=
  { s with
    chatMessages := s.chatMessages.map fun el =>
      { el with children := el.children ++ env.parseHTML msgHtml }
    insertLog := s.insertLog ++ [(msg, msgHtml)] }

/-- The body of the `forEach` callback (lines 56-62) on one message.  The
second component is the exception the body throws, if any; the state next to
it holds the writes made before the throw. -/
def forEachBody (env : Env) (s : State) (msg : Msg) : State × Option String :=
  if msg.id > s.lastMsgId then
    let s1 := { s with lastMsgId := msg.id }
    match env.renderMsg with
    | none => (s1, none)
    | some render =>
      match render msg with
      | .error err => (s1, some err)
      | .ok msgHtml =>
        if msgHtml ≠ "" then (insertAdjacentHTML env s1 msg msgHtml, none)
        else (s1, none)
  else (s, none)

/-- The loop `messages.forEach(...)` (lines 55-63): the body runs on the
messages in array order and an exception ends the loop. -/
def forEach (env : Env) (s : State) : List Msg → State × Option String
  | [] => (s, none)
  | msg :: rest =>
    match forEachBody env s msg with
    | (s1, some err) => (s1, some err)
    | (s1, none) => forEach env s1 rest

/-- The assignment `chatMessages.scrollTop = chatMessages.scrollHeight`. -/
def scrollToBottom (env : Env) (s : State) : State :=
  { s with
    chatMessages := s.chatMessages.map fun el =>
      { el with scrollTop := env.scrollHeight el } }

/-- The success callback `messages => ...` (lines 46-67), with the exception
it throws, if any. -/
def onMessages (env : Env) (s : State) (messages : List Msg) : State × Option String :=
  if messages.length > 0 then
    match getElementById s with
    | none => (s, none)
    | some el =>
      match forEach env { s with chatMessages := some (removeSpinner el) } messages with
      | (s1, some err) => (s1, some err)
      | (s1, none) => (scrollToBottom env s1, none)
  else (s, none)

/-- The handler `err => console.error('Polling error:', err)`. -/
def logError (s : State) (err : String) : State :=
  { s with console := s.console ++ ["Polling error: " ++ err] }

/-- The promise chain of one tick (lines 44-68) once its request has settled. -/
def tick (env : Env) (s : State) : Response → State
  | .fetchRejected err => logError s err
  | .jsonRejected err => logError s err
  | .ok messages =>
    match onMessages env s messages with
    | (s1, none) => s1
    | (s1, some err) => logError s1 err

/-- The URL of the request a tick of the timer for `channelId` issues. -/
def requestUrl (channelId : String) (s : State) : String :=
  "/api/messages/" ++ channelId ++ "?after=" ++ toString s.lastMsgId

/-! ## Starting the poller (main.js, lines 40-43 and 69-70) -/

/-- The call `clearInterval(handle)`: the timer with that handle is no longer
active. -/
def clearInterval (s : State) (handle : Nat) : State :=
  { s with timers := s.timers.filter fun t => t.handle ≠ handle }

/-- The call `setInterval(callback, delay)` for the polling callback of
`channelId`: the browser activates a timer under a handle it has not used
before and returns the handle.  Handles are positive integers. -/
def setInterval (s : State) (channelId : String) (delay : Nat) : State × Nat :=
  ({ s with
     timers := s.timers ++ [{ handle := s.nextHandle, channelId := channelId, delay := delay }]
     nextHandle := s.nextHandle + 1 },
   s.nextHandle)

/-- The function `startChatPolling(channelId)`.  The test
`if (chatPollInterval)` fails for `null` and for the number 0. -/
def startChatPolling (channelId : String) (s : State) : State :=
  let s1 :=
    match s.chatPollInterval with
    | some handle => if handle ≠ 0 then clearInterval s handle else s
    | none => s
  let (s2, handle) := setInterval s1 channelId 3000
  { s2 with chatPollInterval := some handle }

/-- The state after the script has loaded (lines 37-38): no timer handle,
watermark 0; the page may or may not hold a display surface. -/
def initial (chatMessages : Option Element) : State :=
  { chatPollInterval := none
    lastMsgId := 0
    chatMessages := chatMessages
    timers := []
    nextHandle := 1
    console := []
    insertLog := [] }

/-- One event of the page: a call of `startChatPolling`, or the response of a
tick being processed. -/
inductive Event where
  | start (channelId : String)
  | response (env : Env) (r : Response)

/-- The state after one event. -/
def step (s : State) : Event → State
  | .start channelId => startChatPolling channelId s
  | .response env r => tick env s r

/-- The state after a sequence of events, oldest first. -/
def run (s : State) (events : List Event) : State :=
  events.foldl step s

/-- The states passed through by a sequence of events, the starting state
first. -/
def trace (s : State) : List Event → List State
  | [] => [s]
  | e :: rest => s :: trace (step s e) rest

/-! ## Vocabulary of the specification -/

/-- The watermark in force after the messages `earlier` have been processed
from watermark `w`: the maximum of `w` and of their ids. -/
def watermarkAt (w : Int) (earlier : List Msg) : Int :=
  (earlier.map Msg.id).foldl max w

/-- The messages appended to the display so far, oldest first. -/
def appended (s : State) : List Msg :=
  s.insertLog.map Prod.fst

/-- The fragment `render` returns for `m`; the empty string when it throws. -/
def fragmentOf (render : Msg → Except String String) (m : Msg) : String :=
  match render m with
  | .ok html => html
  | .error _ => ""

/-- The watermark after a batch in the words of the specification: the maximum
of the old watermark and the id of the last message, the old watermark when
there is no message. -/
def watermarkAfterLast (w : Int) (batch : List Msg) : Int :=
  match batch.getLast? with
  | some m => max w m.id
  | none => w

/-- The values `renderMsg` exists and returns a non-empty fragment for every
message of the batch an event delivers. -/
def Renders : Event → Prop
  | .response env (.ok batch) =>
    ∃ render, env.renderMsg = some render ∧ ∀ m ∈ batch, ∃ html, render m = .ok html ∧ html ≠ ""
  | _ => True

/-- The timers of the page are in order: handles are positive and below the
next handle, and either no interval timer is active and `chatPollInterval` is
`null`, or exactly one is active, of period 3000 ms, and `chatPollInterval`
holds its handle. -/
def TimersInOrder (s : State) : Prop :=
  0 < s.nextHandle ∧
    ((s.timers = [] ∧ s.chatPollInterval = none) ∨
      ∃ t, s.timers = [t] ∧ s.chatPollInterval = some t.handle ∧ t.delay = 3000 ∧
        0 < t.handle ∧ t.handle < s.nextHandle)

/-- The state a loop leaves behind, given the watermark it reached and the
log entries it added: the fragments of the entries sit after the children
the surface had, and nothing else has changed. -/
def afterLoop (env : Env) (s : State) (w : Int) (added : List (Msg × String)) : State :=
  { s with
    lastMsgId := w
    chatMessages := s.chatMessages.map fun el =>
      { el with children := el.children ++ added.flatMap fun p => env.parseHTML p.2 }
    insertLog := s.insertLog ++ added }

/-! ## Sample inputs -/

/-- A surface in the document that shows a loading spinner and one line of
text. -/
def demoSurface : Element :=
  { children := [.element ["loading"] [.element ["spinner"] []], .text "welcome"]
    attached := true
    scrollTop := 0 }

/-- A render function that returns the payload of the message. -/
def renderPayload (m : Msg) : Except String String :=
  .ok m.payload

/-- A render function that throws on every message. -/
def renderThrows (_ : Msg) : Except String String :=
  .error "render failed"

/-- A browser whose fragment parser yields one text node and whose layout
height is the number of children. -/
def demoEnv (renderMsg : Option (Msg → Except String String)) : Env :=
  { renderMsg := renderMsg
    parseHTML := fun html => [.text html]
    scrollHeight := fun el => el.children.length }

/-- The sample surface once a tick has removed the spinner holder, appended the
fragments `six`, `seven`, `eight` and scrolled to the bottom. -/
def demoSurfaceAfter : Element :=
  { children := [.text "welcome", .text "six", .text "seven", .text "eight"]
    attached := true
    scrollTop := 4 }

/-- The loaded page with the sample surface and watermark `w`. -/
def demoState (w : Int) : State :=
  { initial (some demoSurface) with lastMsgId := w }

/-! ## The loop over one batch -/

theorem forEachBody_lastMsgId (env : Env) (s : State) (m : Msg) :
    (forEachBody env s m).1.lastMsgId = max s.lastMsgId m.id := by
  unfold forEachBody
  by_cases h : m.id > s.lastMsgId
  · have hmax : max s.lastMsgId m.id = m.id := max_eq_right (le_of_lt h)
    simp only [h, if_true, hmax]
    cases env.renderMsg with
    | none => rfl
    | some render =>
      simp only
      cases render m with
      | error err => rfl
      | ok msgHtml =>
        simp only
        by_cases hh : msgHtml = "" <;> simp [hh, insertAdjacentHTML]
  · have hmax : max s.lastMsgId m.id = s.lastMsgId := max_eq_left (not_lt.mp h)
    simp [h, hmax]

theorem forEachBody_stale (env : Env) (s : State) (m : Msg) (h : m.id ≤ s.lastMsgId) :
    forEachBody env s m = (s, none) := by
  unfold forEachBody
  simp [not_lt.mpr h]

theorem watermarkAt_nil (w : Int) : watermarkAt w [] = w := rfl

theorem watermarkAt_cons (w : Int) (m : Msg) (rest : List Msg) :
    watermarkAt w (m :: rest) = watermarkAt (max w m.id) rest := rfl

theorem watermarkAt_append (w : Int) (pre post : List Msg) :
    watermarkAt w (pre ++ post) = watermarkAt (watermarkAt w pre) post := by
  simp [watermarkAt, List.foldl_append]

theorem le_watermarkAt (w : Int) (batch : List Msg) : w ≤ watermarkAt w batch := by
  induction batch generalizing w with
  | nil => exact le_refl w
  | cons m rest ih =>
    rw [watermarkAt_cons]
    exact le_trans (le_max_left w m.id) (ih _)

theorem forEach_nil (env : Env) (s : State) : forEach env s [] = (s, none) := rfl

theorem forEach_cons_of_ok (env : Env) (s s1 : State) (m : Msg) (rest : List Msg)
    (h : forEachBody env s m = (s1, none)) :
    forEach env s (m :: rest) = forEach env s1 rest := by
  simp [forEach, h]

theorem forEach_cons_of_throw (env : Env) (s s1 : State) (m : Msg) (rest : List Msg)
    (err : String) (h : forEachBody env s m = (s1, some err)) :
    forEach env s (m :: rest) = (s1, some err) := by
  simp [forEach, h]

/-- Every run of the body either completes or throws. -/
theorem forEachBody_cases (env : Env) (s : State) (m : Msg) :
    (∃ s1, forEachBody env s m = (s1, none)) ∨
    (∃ s1 err, forEachBody env s m = (s1, some err)) := by
  rcases hb : forEachBody env s m with ⟨s1, _ | err⟩
  · exact Or.inl ⟨s1, rfl⟩
  · exact Or.inr ⟨s1, err, rfl⟩

theorem forEach_stale (env : Env) (s : State) (pre post : List Msg) (m : Msg)
    (h : m.id ≤ watermarkAt s.lastMsgId pre) :
    forEach env s (pre ++ m :: post) = forEach env s (pre ++ post) := by
  induction pre generalizing s with
  | nil =>
    simp only [List.nil_append]
    exact forEach_cons_of_ok env s s m post (forEachBody_stale env s m h)
  | cons x rest ih =>
    simp only [List.cons_append]
    rcases forEachBody_cases env s x with ⟨s1, hx⟩ | ⟨s1, err, hx⟩
    · rw [forEach_cons_of_ok env s s1 x _ hx, forEach_cons_of_ok env s s1 x _ hx]
      apply ih
      have hw : s1.lastMsgId = max s.lastMsgId x.id := by
        have := forEachBody_lastMsgId env s x
        rw [hx] at this
        exact this
      rw [hw]
      exact h
    · rw [forEach_cons_of_throw env s s1 x _ err hx, forEach_cons_of_throw env s s1 x _ err hx]

theorem afterLoop_nil (env : Env) (s : State) : afterLoop env s s.lastMsgId [] = s := by
  rcases s with ⟨cpi, w, cm, ts, nh, con, lg⟩
  cases cm <;> simp [afterLoop]

theorem afterLoop_insert (env : Env) (s : State) (m : Msg) (html : String) (w : Int)
    (added : List (Msg × String)) :
    afterLoop env (insertAdjacentHTML env { s with lastMsgId := m.id } m html) w added =
      afterLoop env s w ((m, html) :: added) := by
  rcases s with ⟨cpi, w0, cm, ts, nh, con, lg⟩
  cases cm <;> simp [afterLoop, insertAdjacentHTML, List.flatMap_cons, List.append_assoc]

/-- The three ways the body of the loop can end on a message that is above the
watermark, and the one way on a message that is not. -/
theorem forEachBody_shape (env : Env) (s : State) (m : Msg) :
    (m.id ≤ s.lastMsgId ∧ forEachBody env s m = (s, none)) ∨
    (s.lastMsgId < m.id ∧ forEachBody env s m = ({ s with lastMsgId := m.id }, none)) ∨
    (s.lastMsgId < m.id ∧ ∃ render err, env.renderMsg = some render ∧
      render m = .error err ∧
      forEachBody env s m = ({ s with lastMsgId := m.id }, some err)) ∨
    (s.lastMsgId < m.id ∧ ∃ render html, env.renderMsg = some render ∧
      render m = .ok html ∧ html ≠ "" ∧
      forEachBody env s m =
        (insertAdjacentHTML env { s with lastMsgId := m.id } m html, none)) := by
  by_cases h : m.id > s.lastMsgId
  · right
    unfold forEachBody
    simp only [h, if_true]
    cases hr : env.renderMsg with
    | none => exact Or.inl ⟨trivial, rfl⟩
    | some render =>
      simp only
      cases hm : render m with
      | error err => exact Or.inr (Or.inl ⟨trivial, render, err, rfl, hm, rfl⟩)
      | ok html =>
        simp only
        by_cases hh : html = ""
        · left
          simp [hh, h]
        · right; right
          exact ⟨trivial, render, html, rfl, hm, hh, by simp [hh]⟩
  · exact Or.inl ⟨not_lt.mp h, forEachBody_stale env s m (not_lt.mp h)⟩

theorem chain_lt_of_lt (w v : Int) (ids : List Int) (h : w < v)
    (hc : List.Chain (fun a b => a < b) v ids) : List.Chain (fun a b => a < b) w ids := by
  cases hc with
  | nil => exact List.Chain.nil
  | cons hab hrest => exact List.Chain.cons (lt_trans h hab) hrest

/-- What one run of the loop does to the state: it raises the watermark to
some `w` and adds log entries for a sublist of the batch, with ids strictly
increasing from the old watermark up to at most `w`, each entry holding a
non-empty fragment that the render function returned. -/
theorem forEach_shape (env : Env) (s : State) (batch : List Msg) :
    ∃ (added : List (Msg × String)) (w : Int),
      (forEach env s batch).1 = afterLoop env s w added ∧
      (added.map Prod.fst).Sublist batch ∧
      List.Chain (fun a b => a < b) s.lastMsgId (added.map fun p => p.1.id) ∧
      (∀ p ∈ added, p.1.id ≤ w) ∧
      (∀ p ∈ added, ∃ render, env.renderMsg = some render ∧ render p.1 = .ok p.2 ∧ p.2 ≠ "") ∧
      s.lastMsgId ≤ w := by
  induction batch generalizing s with
  | nil =>
    refine ⟨[], s.lastMsgId, ?_, List.Sublist.slnil, List.Chain.nil, ?_, ?_, le_refl _⟩
    · simp [forEach_nil, afterLoop_nil]
    · intro p hp; cases hp
    · intro p hp; cases hp
  | cons m rest ih =>
    rcases forEachBody_shape env s m with ⟨_, hb⟩ | ⟨hlt, hb⟩ | ⟨hlt, render, err, _, _, hb⟩ |
        ⟨hlt, render, html, hr, hm, hne, hb⟩
    · obtain ⟨added, w, h1, h2, h3, h4, h5, h6⟩ := ih s
      rw [forEach_cons_of_ok env s s m rest hb]
      exact ⟨added, w, h1, List.Sublist.cons m h2, h3, h4, h5, h6⟩
    · obtain ⟨added, w, h1, h2, h3, h4, h5, h6⟩ := ih { s with lastMsgId := m.id }
      rw [forEach_cons_of_ok env s _ m rest hb]
      refine ⟨added, w, ?_, List.Sublist.cons m h2, chain_lt_of_lt _ _ _ hlt h3, h4, h5,
        le_trans (le_of_lt hlt) h6⟩
      rw [h1]
      rfl
    · rw [forEach_cons_of_throw env s _ m rest err hb]
      refine ⟨[], m.id, ?_, List.nil_sublist _, List.Chain.nil, ?_, ?_, le_of_lt hlt⟩
      · rcases s with ⟨cpi, w, cm, ts, nh, con, lg⟩
        cases cm <;> simp [afterLoop]
      · intro p hp; cases hp
      · intro p hp; cases hp
    · obtain ⟨added, w, h1, h2, h3, h4, h5, h6⟩ :=
        ih (insertAdjacentHTML env { s with lastMsgId := m.id } m html)
      rw [forEach_cons_of_ok env s _ m rest hb]
      have hw : (insertAdjacentHTML env { s with lastMsgId := m.id } m html).lastMsgId = m.id :=
        rfl
      rw [hw] at h3 h6
      refine ⟨(m, html) :: added, w, ?_, ?_, ?_, ?_, ?_, le_trans (le_of_lt hlt) h6⟩
      · rw [h1, afterLoop_insert]
      · simpa using List.Sublist.cons₂ m h2
      · simpa using List.Chain.cons hlt h3
      · intro p hp
        rcases List.mem_cons.mp hp with h | h
        · subst h; exact h6
        · exact h4 p h
      · intro p hp
        rcases List.mem_cons.mp hp with h | h
        · subst h; exact ⟨render, hr, hm, hne⟩
        · exact h5 p h

/-- A loop that ends without an exception has raised the watermark to the
maximum of the old watermark and of all ids of the batch. -/
theorem forEach_lastMsgId (env : Env) (s : State) (batch : List Msg)
    (h : (forEach env s batch).2 = none) :
    (forEach env s batch).1.lastMsgId = watermarkAt s.lastMsgId batch := by
  induction batch generalizing s with
  | nil => rfl
  | cons m rest ih =>
    rcases forEachBody_cases env s m with ⟨s1, hb⟩ | ⟨s1, err, hb⟩
    · rw [forEach_cons_of_ok env s s1 m rest hb] at h ⊢
      have hw : s1.lastMsgId = max s.lastMsgId m.id := by
        have := forEachBody_lastMsgId env s m
        rw [hb] at this
        exact this
      rw [ih s1 h, hw, watermarkAt_cons]
    · rw [forEach_cons_of_throw env s s1 m rest err hb] at h
      cases h

/-! ## One tick -/

theorem tick_ok_nil (env : Env) (s : State) : tick env s (.ok []) = s := by
  simp [tick, onMessages]

theorem tick_ok_absent (env : Env) (s : State) (batch : List Msg)
    (h : getElementById s = none) : tick env s (.ok batch) = s := by
  unfold tick onMessages
  by_cases hl : batch.length > 0 <;> simp [hl, h]

/-- On a non-empty batch with the surface in the document, the tick is the loop
on the state whose surface has lost the spinner, followed by the scroll
assignment when the loop completes and by the error log when it throws. -/
theorem tick_ok_surface (env : Env) (s : State) (batch : List Msg) (el : Element)
    (hel : getElementById s = some el) (hne : batch ≠ []) :
    ((forEach env { s with chatMessages := some (removeSpinner el) } batch).2 = none →
      tick env s (.ok batch) =
        scrollToBottom env
          (forEach env { s with chatMessages := some (removeSpinner el) } batch).1) ∧
    (∀ err, (forEach env { s with chatMessages := some (removeSpinner el) } batch).2 = some err →
      tick env s (.ok batch) =
        logError (forEach env { s with chatMessages := some (removeSpinner el) } batch).1 err) := by
  have hl : batch.length > 0 := List.length_pos.mpr hne
  unfold tick onMessages
  simp only [hl, if_true, hel]
  rcases forEach env { s with chatMessages := some (removeSpinner el) } batch with ⟨s1, _ | e⟩
  · exact ⟨fun _ => rfl, fun err h => by cases h⟩
  · refine ⟨fun h => (by cases h), fun err h => ?_⟩
    cases h
    rfl

/-- The watermark and the insertion log after a tick are those the loop leaves,
whatever the batch. -/
theorem tick_ok_fields (env : Env) (s : State) (batch : List Msg) (el : Element)
    (hel : getElementById s = some el) :
    (tick env s (.ok batch)).lastMsgId =
      (forEach env { s with chatMessages := some (removeSpinner el) } batch).1.lastMsgId ∧
    (tick env s (.ok batch)).insertLog =
      (forEach env { s with chatMessages := some (removeSpinner el) } batch).1.insertLog := by
  by_cases hne : batch = []
  · subst hne
    rw [tick_ok_nil]
    exact ⟨rfl, rfl⟩
  · obtain ⟨h1, h2⟩ := tick_ok_surface env s batch el hel hne
    rcases hr : (forEach env { s with chatMessages := some (removeSpinner el) } batch).2 with
      _ | err
    · rw [h1 hr]
      exact ⟨rfl, rfl⟩
    · rw [h2 err hr]
      exact ⟨rfl, rfl⟩

theorem getElementById_cases (s : State) :
    getElementById s = none ∨ ∃ el, getElementById s = some el := by
  cases h : getElementById s with
  | none => exact Or.inl rfl
  | some el => exact Or.inr ⟨el, rfl⟩

theorem lt_of_chain_lt (w : Int) (ids : List Int)
    (hc : List.Chain (fun a b => a < b) w ids) : ∀ x ∈ ids, w < x := by
  induction ids generalizing w with
  | nil => intro x hx; cases hx
  | cons v rest ih =>
    cases hc with
    | cons hwv hrest =>
      intro x hx
      rcases List.mem_cons.mp hx with h | h
      · subst h; exact hwv
      · exact lt_trans hwv (ih v hrest x h)

/-- What a tick adds to the insertion log, whatever the batch and the surface:
entries for a sublist of the batch whose ids increase strictly from the old
watermark and stay at or below the new one, each with a non-empty fragment the
render function returned. -/
theorem tick_ok_log (env : Env) (s : State) (batch : List Msg) :
    ∃ added : List (Msg × String),
      (tick env s (.ok batch)).insertLog = s.insertLog ++ added ∧
      (added.map Prod.fst).Sublist batch ∧
      List.Chain (fun a b => a < b) s.lastMsgId (added.map fun p => p.1.id) ∧
      (∀ p ∈ added, p.1.id ≤ (tick env s (.ok batch)).lastMsgId) ∧
      (∀ p ∈ added, ∃ render, env.renderMsg = some render ∧ render p.1 = .ok p.2 ∧ p.2 ≠ "") ∧
      s.lastMsgId ≤ (tick env s (.ok batch)).lastMsgId := by
  rcases getElementById_cases s with h | ⟨el, hel⟩
  · rw [tick_ok_absent env s batch h]
    refine ⟨[], by simp, List.nil_sublist _, List.Chain.nil, ?_, ?_, le_refl _⟩
    · intro p hp; cases hp
    · intro p hp; cases hp
  · obtain ⟨hw, hlog⟩ := tick_ok_fields env s batch el hel
    obtain ⟨added, w, h1, h2, h3, h4, h5, h6⟩ :=
      forEach_shape env { s with chatMessages := some (removeSpinner el) } batch
    rw [hw, hlog, h1]
    exact ⟨added, rfl, h2, h3, h4, h5, h6⟩

/-- On a non-empty batch with the surface in the document, the state after the
tick is the state the loop leaves from the spinner-free surface, scrolled to
the bottom or with the exception logged. -/
theorem tick_ok_shape (env : Env) (s : State) (batch : List Msg) (el : Element)
    (hel : getElementById s = some el) (hne : batch ≠ []) :
    ∃ (added : List (Msg × String)) (w : Int),
      (tick env s (.ok batch) =
          scrollToBottom env
            (afterLoop env { s with chatMessages := some (removeSpinner el) } w added) ∨
        ∃ err, tick env s (.ok batch) =
          logError (afterLoop env { s with chatMessages := some (removeSpinner el) } w added)
            err) ∧
      (added.map Prod.fst).Sublist batch ∧
      (∀ p ∈ added, ∃ render, env.renderMsg = some render ∧ render p.1 = .ok p.2 ∧ p.2 ≠ "") := by
  obtain ⟨h1, h2⟩ := tick_ok_surface env s batch el hel hne
  obtain ⟨added, w, g1, g2, _, _, g5, _⟩ :=
    forEach_shape env { s with chatMessages := some (removeSpinner el) } batch
  refine ⟨added, w, ?_, g2, g5⟩
  rcases hr : (forEach env { s with chatMessages := some (removeSpinner el) } batch).2 with
    _ | err
  · left
    rw [h1 hr, g1]
  · right
    exact ⟨err, by rw [h2 err hr, g1]⟩

theorem tick_lastMsgId_le (env : Env) (s : State) (r : Response) :
    s.lastMsgId ≤ (tick env s r).lastMsgId := by
  cases r with
  | fetchRejected err => exact le_refl _
  | jsonRejected err => exact le_refl _
  | ok batch =>
    obtain ⟨_, _, _, _, _, _, h⟩ := tick_ok_log env s batch
    exact h

theorem startChatPolling_lastMsgId (channelId : String) (s : State) :
    (startChatPolling channelId s).lastMsgId = s.lastMsgId := by
  unfold startChatPolling
  cases s.chatPollInterval with
  | none => rfl
  | some handle =>
    by_cases h : handle = 0 <;> simp [h, setInterval, clearInterval]

theorem step_lastMsgId_le (s : State) (e : Event) : s.lastMsgId ≤ (step s e).lastMsgId := by
  cases e with
  | start channelId => exact le_of_eq (startChatPolling_lastMsgId channelId s).symm
  | response env r => exact tick_lastMsgId_le env s r

theorem trace_head (s : State) (events : List Event) :
    ∃ rest, trace s events = s :: rest := by
  cases events with
  | nil => exact ⟨[], rfl⟩
  | cons e es => exact ⟨trace (step s e) es, rfl⟩

/-- Without a render function the loop completes, raises the watermark to the
maximum of the ids and touches nothing else. -/
theorem forEach_no_render (env : Env) (s : State) (batch : List Msg)
    (hr : env.renderMsg = none) :
    forEach env s batch = ({ s with lastMsgId := watermarkAt s.lastMsgId batch }, none) := by
  induction batch generalizing s with
  | nil => rfl
  | cons m rest ih =>
    have hb : forEachBody env s m = ({ s with lastMsgId := max s.lastMsgId m.id }, none) := by
      unfold forEachBody
      by_cases h : m.id > s.lastMsgId
      · simp [h, hr, max_eq_right (le_of_lt h)]
      · simp [h, max_eq_left (not_lt.mp h)]
    rw [forEach_cons_of_ok env s _ m rest hb, ih]
    rfl


theorem watermarkAt_ascending (w : Int) (batch : List Msg)
    (hasc : batch.Pairwise fun a b => a.id < b.id) :
    watermarkAt w batch = watermarkAfterLast w batch := by
  induction batch generalizing w with
  | nil => rfl
  | cons m rest ih =>
    obtain ⟨hm, hrest⟩ := List.pairwise_cons.mp hasc
    rw [watermarkAt_cons, ih _ hrest]
    cases rest with
    | nil => rfl
    | cons x r =>
      unfold watermarkAfterLast
      rw [List.getLast?_cons_cons]
      cases hl : (x :: r).getLast? with
      | none => simp at hl
      | some last =>
        have hmem : last ∈ x :: r := List.mem_of_mem_getLast? (by rw [hl]; rfl)
        have hlt : m.id < last.id := hm last hmem
        show max (max w m.id) last.id = max w last.id
        rw [max_assoc, max_eq_right (le_of_lt hlt)]

/-- On a batch with strictly ascending ids, rendered to non-empty fragments,
the loop completes, appends the messages above the old watermark in batch
order and ends at the maximum of the ids. -/
theorem forEach_ascending (env : Env) (s : State) (batch : List Msg)
    (render : Msg → Except String String)
    (hasc : batch.Pairwise fun a b => a.id < b.id)
    (hr : env.renderMsg = some render)
    (hhtml : ∀ m ∈ batch, ∃ html, render m = .ok html ∧ html ≠ "") :
    forEach env s batch =
      (afterLoop env s (watermarkAt s.lastMsgId batch)
        ((batch.filter fun m => s.lastMsgId < m.id).map fun m => (m, fragmentOf render m)),
       none) := by
  induction batch generalizing s with
  | nil => simp [forEach_nil, watermarkAt_nil, afterLoop_nil]
  | cons m rest ih =>
    obtain ⟨hm, hrest⟩ := List.pairwise_cons.mp hasc
    have hhtml1 : ∀ x ∈ rest, ∃ html, render x = .ok html ∧ html ≠ "" :=
      fun x hx => hhtml x (List.mem_cons_of_mem m hx)
    by_cases hlt : s.lastMsgId < m.id
    · obtain ⟨html, hok, hne⟩ := hhtml m (List.mem_cons_self m rest)
      have hb : forEachBody env s m =
          (insertAdjacentHTML env { s with lastMsgId := m.id } m html, none) := by
        unfold forEachBody
        simp [hlt, hr, hok, hne]
      have hf1 : (rest.filter fun x => m.id < x.id) = rest :=
        List.filter_eq_self.mpr fun x hx => by simpa using hm x hx
      have hf2 : (rest.filter fun x => s.lastMsgId < x.id) = rest :=
        List.filter_eq_self.mpr fun x hx => by simpa using lt_trans hlt (hm x hx)
      have hfrag : fragmentOf render m = html := by simp [fragmentOf, hok]
      rw [forEach_cons_of_ok env s _ m rest hb, ih _ hrest hhtml1]
      have hw : (insertAdjacentHTML env { s with lastMsgId := m.id } m html).lastMsgId = m.id :=
        rfl
      rw [hw, afterLoop_insert, watermarkAt_cons, max_eq_right (le_of_lt hlt), hf1]
      simp [List.filter_cons, hlt, hf2, hfrag]
    · have hle : m.id ≤ s.lastMsgId := not_lt.mp hlt
      rw [forEach_cons_of_ok env s s m rest (forEachBody_stale env s m hle), ih s hrest hhtml1,
        watermarkAt_cons, max_eq_left hle]
      simp [List.filter_cons, hlt]


/-- A tick leaves the timer handle, the active timers and the handle counter
alone. -/
theorem tick_frame (env : Env) (s : State) (r : Response) :
    (tick env s r).chatPollInterval = s.chatPollInterval ∧
    (tick env s r).timers = s.timers ∧
    (tick env s r).nextHandle = s.nextHandle := by
  cases r with
  | fetchRejected err => exact ⟨rfl, rfl, rfl⟩
  | jsonRejected err => exact ⟨rfl, rfl, rfl⟩
  | ok batch =>
    rcases getElementById_cases s with h | ⟨el, hel⟩
    · rw [tick_ok_absent env s batch h]
      exact ⟨rfl, rfl, rfl⟩
    · by_cases hne : batch = []
      · subst hne
        rw [tick_ok_nil]
        exact ⟨rfl, rfl, rfl⟩
      · obtain ⟨added, w, ht, _, _⟩ := tick_ok_shape env s batch el hel hne
        rcases ht with ht | ⟨err, ht⟩ <;> rw [ht] <;> exact ⟨rfl, rfl, rfl⟩

theorem startChatPolling_insertLog (channelId : String) (s : State) :
    (startChatPolling channelId s).insertLog = s.insertLog := by
  unfold startChatPolling
  cases s.chatPollInterval with
  | none => rfl
  | some handle =>
    by_cases h : handle = 0 <;> simp [h, setInterval, clearInterval]

/-- When the render function returns a non-empty fragment for every message of
the batch, the loop completes and the watermark it reaches is the maximum of
the old watermark and of the ids it appended. -/
theorem forEach_renders (env : Env) (s : State) (batch : List Msg)
    (render : Msg → Except String String) (hr : env.renderMsg = some render)
    (hhtml : ∀ m ∈ batch, ∃ html, render m = .ok html ∧ html ≠ "") :
    ∃ added : List (Msg × String),
      (forEach env s batch).1.insertLog = s.insertLog ++ added ∧
      (forEach env s batch).1.lastMsgId = watermarkAt s.lastMsgId (added.map Prod.fst) := by
  induction batch generalizing s with
  | nil => exact ⟨[], by simp [forEach_nil], rfl⟩
  | cons m rest ih =>
    have hhtml1 : ∀ x ∈ rest, ∃ html, render x = .ok html ∧ html ≠ "" :=
      fun x hx => hhtml x (List.mem_cons_of_mem m hx)
    by_cases hlt : s.lastMsgId < m.id
    · obtain ⟨html, hok, hne⟩ := hhtml m (List.mem_cons_self m rest)
      have hb : forEachBody env s m =
          (insertAdjacentHTML env { s with lastMsgId := m.id } m html, none) := by
        unfold forEachBody
        simp [hlt, hr, hok, hne]
      obtain ⟨added, h1, h2⟩ :=
        ih (insertAdjacentHTML env { s with lastMsgId := m.id } m html) hhtml1
      rw [forEach_cons_of_ok env s _ m rest hb]
      refine ⟨(m, html) :: added, ?_, ?_⟩
      · rw [h1]
        simp [insertAdjacentHTML]
      · rw [h2]
        show watermarkAt m.id _ = watermarkAt (max s.lastMsgId m.id) _
        rw [max_eq_right (le_of_lt hlt)]
    · rw [forEach_cons_of_ok env s s m rest (forEachBody_stale env s m (not_lt.mp hlt))]
      exact ih s hhtml1

/-- A loop that throws does so in the render call of some message of the
batch that is above the watermark in force, and leaves the watermark at the
id of that message. -/
theorem forEach_throw (env : Env) (s : State) (batch : List Msg) (err : String)
    (h : (forEach env s batch).2 = some err) :
    ∃ pre m post render, batch = pre ++ m :: post ∧
      env.renderMsg = some render ∧ render m = .error err ∧
      watermarkAt s.lastMsgId pre < m.id ∧
      (forEach env s batch).1.lastMsgId = m.id := by
  induction batch generalizing s with
  | nil => cases h
  | cons x rest ih =>
    rcases forEachBody_shape env s x with ⟨hle, hb⟩ | ⟨hlt, hb⟩ | ⟨hlt, render, e, hr, hm, hb⟩ |
        ⟨hlt, render, html, hr, hm, hne, hb⟩
    · rw [forEach_cons_of_ok env s s x rest hb] at h ⊢
      obtain ⟨pre, m, post, render, h1, h2, h3, h4, h5⟩ := ih s h
      refine ⟨x :: pre, m, post, render, by rw [h1]; rfl, h2, h3, ?_, h5⟩
      rw [watermarkAt_cons, max_eq_left hle]
      exact h4
    · rw [forEach_cons_of_ok env s _ x rest hb] at h ⊢
      obtain ⟨pre, m, post, render, h1, h2, h3, h4, h5⟩ := ih _ h
      refine ⟨x :: pre, m, post, render, by rw [h1]; rfl, h2, h3, ?_, h5⟩
      rw [watermarkAt_cons, max_eq_right (le_of_lt hlt)]
      exact h4
    · rw [forEach_cons_of_throw env s _ x rest e hb] at h ⊢
      cases h
      exact ⟨[], x, rest, render, rfl, hr, hm, hlt, rfl⟩
    · rw [forEach_cons_of_ok env s _ x rest hb] at h ⊢
      obtain ⟨pre, m, post, render1, h1, h2, h3, h4, h5⟩ := ih _ h
      refine ⟨x :: pre, m, post, render1, by rw [h1]; rfl, h2, h3, ?_, h5⟩
      rw [watermarkAt_cons, max_eq_right (le_of_lt hlt)]
      exact h4

/-- The success callback throws only out of the loop, on a non-empty batch
with the surface in the document. -/
theorem onMessages_throw (env : Env) (s : State) (batch : List Msg) (err : String)
    (h : (onMessages env s batch).2 = some err) :
    ∃ el, getElementById s = some el ∧ batch ≠ [] ∧
      (forEach env { s with chatMessages := some (removeSpinner el) } batch).2 = some err := by
  unfold onMessages at h
  by_cases hl : batch.length > 0
  · simp only [hl, if_true] at h
    rcases getElementById_cases s with hn | ⟨el, hel⟩
    · rw [hn] at h
      cases h
    · simp only [hel] at h
      refine ⟨el, hel, List.length_pos.mp hl, ?_⟩
      rcases hf : forEach env { s with chatMessages := some (removeSpinner el) } batch with
        ⟨s1, _ | e⟩
      · simp only [hf] at h
        cases h
      · simp only [hf] at h
        exact h
  · simp [hl] at h


theorem step_insertLog_bound (s : State) (e : Event)
    (h : ∀ m ∈ appended s, m.id ≤ s.lastMsgId) :
    ∀ m ∈ appended (step s e), m.id ≤ (step s e).lastMsgId := by
  cases e with
  | start channelId =>
    show ∀ m ∈ appended (startChatPolling channelId s), m.id ≤ (startChatPolling channelId s).lastMsgId
    unfold appended
    rw [startChatPolling_insertLog, startChatPolling_lastMsgId]
    exact h
  | response env r =>
    show ∀ m ∈ appended (tick env s r), m.id ≤ (tick env s r).lastMsgId
    cases r with
    | fetchRejected err => exact h
    | jsonRejected err => exact h
    | ok batch =>
      obtain ⟨added, h1, _, _, h4, _, h6⟩ := tick_ok_log env s batch
      intro m hm
      unfold appended at hm
      rw [h1, List.map_append] at hm
      rcases List.mem_append.mp hm with hm | hm
      · exact le_trans (h m hm) h6
      · obtain ⟨p, hp, hpm⟩ := List.mem_map.mp hm
        rw [← hpm]
        exact h4 p hp

theorem step_watermark_is_max (s : State) (e : Event) (hr : Renders e)
    (h : s.lastMsgId = watermarkAt 0 (appended s)) :
    (step s e).lastMsgId = watermarkAt 0 (appended (step s e)) := by
  cases e with
  | start channelId =>
    show (startChatPolling channelId s).lastMsgId =
      watermarkAt 0 (appended (startChatPolling channelId s))
    unfold appended
    rw [startChatPolling_insertLog, startChatPolling_lastMsgId]
    exact h
  | response env r =>
    show (tick env s r).lastMsgId = watermarkAt 0 (appended (tick env s r))
    cases r with
    | fetchRejected err => exact h
    | jsonRejected err => exact h
    | ok batch =>
      rcases getElementById_cases s with hn | ⟨el, hel⟩
      · rw [tick_ok_absent env s batch hn]
        exact h
      · obtain ⟨render, hrender, hhtml⟩ := hr
        obtain ⟨hw, hlog⟩ := tick_ok_fields env s batch el hel
        obtain ⟨added, h1, h2⟩ :=
          forEach_renders env { s with chatMessages := some (removeSpinner el) } batch render
            hrender hhtml
        unfold appended
        rw [hw, hlog, h1, h2, List.map_append, watermarkAt_append]
        show watermarkAt s.lastMsgId _ = watermarkAt (watermarkAt 0 (appended s)) _
        rw [← h]

theorem run_cons (s : State) (e : Event) (rest : List Event) :
    run s (e :: rest) = run (step s e) rest := rfl

theorem run_insertLog_bound (s : State) (events : List Event)
    (h : ∀ m ∈ appended s, m.id ≤ s.lastMsgId) :
    ∀ m ∈ appended (run s events), m.id ≤ (run s events).lastMsgId := by
  induction events generalizing s with
  | nil => exact h
  | cons e rest ih =>
    rw [run_cons]
    exact ih (step s e) (step_insertLog_bound s e h)

theorem run_watermark_is_max (s : State) (events : List Event)
    (hr : ∀ e ∈ events, Renders e)
    (h : s.lastMsgId = watermarkAt 0 (appended s)) :
    (run s events).lastMsgId = watermarkAt 0 (appended (run s events)) := by
  induction events generalizing s with
  | nil => exact h
  | cons e rest ih =>
    rw [run_cons]
    exact ih (step s e) (fun x hx => hr x (List.mem_cons_of_mem e hx))
      (step_watermark_is_max s e (hr e (List.mem_cons_self e rest)) h)

theorem startChatPolling_timers (channelId : String) (s : State) (h : TimersInOrder s) :
    (startChatPolling channelId s).timers =
      [{ handle := s.nextHandle, channelId := channelId, delay := 3000 }] ∧
    (startChatPolling channelId s).chatPollInterval = some s.nextHandle ∧
    (startChatPolling channelId s).nextHandle = s.nextHandle + 1 := by
  obtain ⟨_, ⟨ht, hc⟩ | ⟨t, ht, hc, _, hpos, _⟩⟩ := h
  · unfold startChatPolling
    simp [hc, ht, setInterval]
  · have hne : t.handle ≠ 0 := Nat.pos_iff_ne_zero.mp hpos
    unfold startChatPolling
    simp [hc, ht, hne, setInterval, clearInterval]

theorem startChatPolling_inOrder (channelId : String) (s : State) (h : TimersInOrder s) :
    TimersInOrder (startChatPolling channelId s) := by
  obtain ⟨h1, h2, h3⟩ := startChatPolling_timers channelId s h
  refine ⟨by rw [h3]; exact Nat.succ_pos _, Or.inr ⟨_, h1, h2, rfl, h.1, ?_⟩⟩
  rw [h3]
  exact Nat.lt_succ_self _

theorem tick_inOrder (env : Env) (s : State) (r : Response) (h : TimersInOrder s) :
    TimersInOrder (tick env s r) := by
  obtain ⟨h1, h2, h3⟩ := tick_frame env s r
  unfold TimersInOrder
  rw [h1, h2, h3]
  exact h

theorem run_inOrder (s : State) (events : List Event) (h : TimersInOrder s) :
    TimersInOrder (run s events) := by
  induction events generalizing s with
  | nil => exact h
  | cons e rest ih =>
    rw [run_cons]
    apply ih
    cases e with
    | start channelId => exact startChatPolling_inOrder channelId s h
    | response env r => exact tick_inOrder env s r h

theorem initial_inOrder (chatMessages : Option Element) :
    TimersInOrder (initial chatMessages) :=
  ⟨Nat.one_pos, Or.inl ⟨rfl, rfl⟩⟩


/-! ## The claims -/

/-- C1 (no duplicate append).  For every state and batch: (a) what the tick
adds to the display comes from a sublist of the batch whose ids increase
strictly from the watermark `w` the tick started with, so no message with
id at most `w` is appended; (b) when the loop reaches a message, the watermark
in force is the maximum of `w` and of the ids of the earlier messages of the
batch, and the message is appended only if its id is strictly greater;
(c) a message whose id is not greater, such as one that follows a larger id in
the batch, is dropped: the tick appends the same and ends at the same
watermark as on the batch without it. -/
theorem no_duplicate_append (env : Env) (s : State) (batch : List Msg) :
    (∃ added : List (Msg × String),
      (tick env s (.ok batch)).insertLog = s.insertLog ++ added ∧
      (added.map Prod.fst).Sublist batch ∧
      List.Chain (fun a b => a < b) s.lastMsgId (added.map fun p => p.1.id) ∧
      ∀ p ∈ added, s.lastMsgId < p.1.id) ∧
    (∀ pre m post, batch = pre ++ m :: post → (forEach env s pre).2 = none →
      (forEach env s pre).1.lastMsgId = watermarkAt s.lastMsgId pre ∧
      ((forEachBody env (forEach env s pre).1 m).1.insertLog ≠ (forEach env s pre).1.insertLog →
        watermarkAt s.lastMsgId pre < m.id)) ∧
    (∀ pre m post, batch = pre ++ m :: post → m.id ≤ watermarkAt s.lastMsgId pre →
      (tick env s (.ok batch)).insertLog = (tick env s (.ok (pre ++ post))).insertLog ∧
      (tick env s (.ok batch)).lastMsgId = (tick env s (.ok (pre ++ post))).lastMsgId) := by
  refine ⟨?_, ?_, ?_⟩
  · obtain ⟨added, h1, h2, h3, _, _, _⟩ := tick_ok_log env s batch
    refine ⟨added, h1, h2, h3, ?_⟩
    intro p hp
    exact lt_of_chain_lt _ _ h3 p.1.id (List.mem_map.mpr ⟨p, hp, rfl⟩)
  · intro pre m post _ hpre
    have hw := forEach_lastMsgId env s pre hpre
    refine ⟨hw, fun hchg => ?_⟩
    by_contra hle
    apply hchg
    rw [forEachBody_stale env _ m (by rw [hw]; exact not_lt.mp hle)]
  · intro pre m post hb hle
    subst hb
    rcases getElementById_cases s with h | ⟨el, hel⟩
    · rw [tick_ok_absent env s _ h, tick_ok_absent env s _ h]
      exact ⟨rfl, rfl⟩
    · obtain ⟨a1, a2⟩ := tick_ok_fields env s (pre ++ m :: post) el hel
      obtain ⟨b1, b2⟩ := tick_ok_fields env s (pre ++ post) el hel
      have hst := forEach_stale env { s with chatMessages := some (removeSpinner el) }
        pre post m hle
      rw [a1, a2, b1, b2, hst]
      exact ⟨rfl, rfl⟩

/-- C3 (order preservation).  For every state and batch, what one tick appends
is the list of fragments the render function returned for a sublist of the
batch, kept in batch order; when the surface is in the document its children
after the tick are the children it had (less the spinner holder that a
non-empty batch removes) followed by the parsed fragments, and when it is not,
nothing is appended. -/
theorem order_preservation (env : Env) (s : State) (batch : List Msg) :
    ∃ added : List (Msg × String),
      (added.map Prod.fst).Sublist batch ∧
      (∀ p ∈ added, ∃ render, env.renderMsg = some render ∧ render p.1 = .ok p.2) ∧
      (tick env s (.ok batch)).insertLog = s.insertLog ++ added ∧
      (∀ el, getElementById s = some el →
        ∃ el1, (tick env s (.ok batch)).chatMessages = some el1 ∧
          el1.children =
            (if batch.length > 0 then removeSpinner el else el).children ++
              added.flatMap fun p => env.parseHTML p.2) ∧
      (getElementById s = none → added = []) := by
  rcases getElementById_cases s with h | ⟨el, hel⟩
  · refine ⟨[], List.nil_sublist _, ?_, ?_, ?_, fun _ => rfl⟩
    · intro p hp; cases hp
    · rw [tick_ok_absent env s batch h]; simp
    · intro el hel
      rw [h] at hel
      cases hel
  · by_cases hne : batch = []
    · subst hne
      refine ⟨[], List.nil_sublist _, ?_, ?_, ?_, fun _ => rfl⟩
      · intro p hp; cases hp
      · rw [tick_ok_nil]; simp
      · intro el2 hel2
        rw [tick_ok_nil]
        refine ⟨el2, ?_, by simp⟩
        unfold getElementById at hel2
        cases hc : s.chatMessages with
        | none => rw [hc] at hel2; cases hel2
        | some e0 =>
          rw [hc] at hel2
          by_cases ha : e0.attached
          · simp [ha] at hel2
            rw [hel2]
          · simp [ha] at hel2
    · obtain ⟨added, w, ht, h2, h5⟩ := tick_ok_shape env s batch el hel hne
      have hl : batch.length > 0 := List.length_pos.mpr hne
      refine ⟨added, h2, ?_, ?_, ?_, ?_⟩
      · intro p hp
        obtain ⟨render, hr, hm, _⟩ := h5 p hp
        exact ⟨render, hr, hm⟩
      · rcases ht with ht | ⟨err, ht⟩ <;> rw [ht] <;> rfl
      · intro el2 hel2
        rw [hel] at hel2
        cases hel2
        simp only [hl, if_true]
        rcases ht with ht | ⟨err, ht⟩ <;> rw [ht]
        · exact ⟨_, rfl, rfl⟩
        · exact ⟨_, rfl, rfl⟩
      · intro hnone
        rw [hnone] at hel
        cases hel

/-- C5 (monotonicity).  Processing any response never lowers the watermark,
and along every sequence of events from every starting state the watermark of
each state is at most the watermark of the next. -/
theorem watermark_monotone (s : State) (events : List Event) :
    (∀ env r, s.lastMsgId ≤ (tick env s r).lastMsgId) ∧
    List.Chain' (fun a b : State => a.lastMsgId ≤ b.lastMsgId) (trace s events) := by
  refine ⟨fun env r => tick_lastMsgId_le env s r, ?_⟩
  induction events generalizing s with
  | nil => exact List.chain'_singleton s
  | cons e rest ih =>
    obtain ⟨tl, htl⟩ := trace_head (step s e) rest
    have h := ih (step s e)
    show List.Chain' _ (s :: trace (step s e) rest)
    rw [htl] at h ⊢
    exact List.Chain'.cons (step_lastMsgId_le s e) h

/-- C7 (transport or parse failure).  When `fetch` or `res.json()` rejects, the
tick only logs the error: watermark, display, insertion log, timer handle and
active timers are as before, so the timer keeps ticking and its next request
carries the same `after` value. -/
theorem failure_preserves_state (env : Env) (s : State) (err : String) :
    (tick env s (.fetchRejected err) = logError s err ∧
      tick env s (.jsonRejected err) = logError s err) ∧
    (logError s err).lastMsgId = s.lastMsgId ∧
    (logError s err).chatMessages = s.chatMessages ∧
    (logError s err).insertLog = s.insertLog ∧
    (logError s err).chatPollInterval = s.chatPollInterval ∧
    (logError s err).timers = s.timers ∧
    (∀ channelId, requestUrl channelId (tick env s (.fetchRejected err)) =
        requestUrl channelId s ∧
      requestUrl channelId (tick env s (.jsonRejected err)) = requestUrl channelId s) :=
  ⟨⟨rfl, rfl⟩, rfl, rfl, rfl, rfl, rfl, fun _ => ⟨rfl, rfl⟩⟩

/-- C8 (no-op ticks).  On the empty array, and on any batch while the display
surface is not in the document, the success callback returns without an
exception and the tick leaves the whole state, watermark and display
included, as it was. -/
theorem noop_ticks (env : Env) (s : State) (batch : List Msg) :
    (onMessages env s [] = (s, none) ∧ tick env s (.ok []) = s) ∧
    (getElementById s = none →
      onMessages env s batch = (s, none) ∧ tick env s (.ok batch) = s) := by
  refine ⟨⟨by simp [onMessages], tick_ok_nil env s⟩, fun h => ⟨?_, tick_ok_absent env s batch h⟩⟩
  unfold onMessages
  by_cases hl : batch.length > 0 <;> simp [hl, h]

/-- The surface is absent and the batch is not empty: the tick changes
nothing. -/
theorem noop_ticks_witness :
    getElementById (initial none) = none ∧
    tick ⟨none, fun _ => [], fun _ => 0⟩ (initial none) (.ok [⟨1, "a"⟩]) = initial none :=
  ⟨rfl, ((noop_ticks ⟨none, fun _ => [], fun _ => 0⟩ (initial none) [⟨1, "a"⟩]).2 rfl).2⟩

/-- C9 (missing render function).  With the surface in the document and no
global `renderMsg`, a tick appends nothing (the insertion log is unchanged and
the surface holds the children it had, less the spinner holder that a
non-empty batch removes) and the watermark becomes the maximum of the old
watermark and of all ids of the batch. -/
theorem missing_render (env : Env) (s : State) (batch : List Msg) (el : Element)
    (hr : env.renderMsg = none) (hel : getElementById s = some el) :
    (tick env s (.ok batch)).insertLog = s.insertLog ∧
    (tick env s (.ok batch)).lastMsgId = watermarkAt s.lastMsgId batch ∧
    ∃ el1, (tick env s (.ok batch)).chatMessages = some el1 ∧
      el1.children = (if batch.length > 0 then removeSpinner el else el).children := by
  obtain ⟨hw, hlog⟩ := tick_ok_fields env s batch el hel
  have hloop := forEach_no_render env { s with chatMessages := some (removeSpinner el) } batch hr
  refine ⟨by rw [hlog, hloop], by rw [hw, hloop], ?_⟩
  by_cases hne : batch = []
  · subst hne
    rw [tick_ok_nil]
    refine ⟨el, ?_, by simp⟩
    unfold getElementById at hel
    cases hc : s.chatMessages with
    | none => rw [hc] at hel; cases hel
    | some e0 =>
      rw [hc] at hel
      by_cases ha : e0.attached
      · simp [ha] at hel
        rw [hel]
      · simp [ha] at hel
  · have hl : batch.length > 0 := List.length_pos.mpr hne
    obtain ⟨h1, _⟩ := tick_ok_surface env s batch el hel hne
    rw [h1 (by rw [hloop]), hloop]
    simp only [hl, if_true]
    exact ⟨_, rfl, rfl⟩

/-- C4 (exact result on an ascending batch).  With the surface in the
document, strictly ascending ids and a render function that returns a
non-empty fragment for every message of the batch, one tick appends exactly
the messages with id above the old watermark, each with its rendered fragment
and in batch order, after the children the surface had, and the watermark
becomes the maximum of the old watermark and of the id of the last message. -/
theorem exact_on_ascending (env : Env) (s : State) (batch : List Msg) (el : Element)
    (render : Msg → Except String String)
    (hasc : batch.Pairwise fun a b => a.id < b.id)
    (hel : getElementById s = some el)
    (hr : env.renderMsg = some render)
    (hhtml : ∀ m ∈ batch, ∃ html, render m = .ok html ∧ html ≠ "") :
    (tick env s (.ok batch)).insertLog =
      s.insertLog ++
        (batch.filter fun m => s.lastMsgId < m.id).map (fun m => (m, fragmentOf render m)) ∧
    (tick env s (.ok batch)).lastMsgId = watermarkAfterLast s.lastMsgId batch ∧
    ∃ el1, (tick env s (.ok batch)).chatMessages = some el1 ∧
      el1.children =
        (if batch.length > 0 then removeSpinner el else el).children ++
          (batch.filter fun m => s.lastMsgId < m.id).flatMap fun m =>
            env.parseHTML (fragmentOf render m) := by
  obtain ⟨hw, hlog⟩ := tick_ok_fields env s batch el hel
  have hloop := forEach_ascending env { s with chatMessages := some (removeSpinner el) } batch
    render hasc hr hhtml
  refine ⟨by rw [hlog, hloop]; rfl, ?_, ?_⟩
  · rw [hw, hloop, ← watermarkAt_ascending _ _ hasc]
    rfl
  · by_cases hne : batch = []
    · subst hne
      rw [tick_ok_nil]
      refine ⟨el, ?_, by simp⟩
      unfold getElementById at hel
      cases hc : s.chatMessages with
      | none => rw [hc] at hel; cases hel
      | some e0 =>
        rw [hc] at hel
        by_cases ha : e0.attached
        · simp [ha] at hel
          rw [hel]
        · simp [ha] at hel
    · have hl : batch.length > 0 := List.length_pos.mpr hne
      obtain ⟨h1, _⟩ := tick_ok_surface env s batch el hel hne
      rw [h1 (by rw [hloop]), hloop]
      simp only [hl, if_true]
      refine ⟨_, rfl, ?_⟩
      simp [afterLoop, scrollToBottom, List.flatMap_map]

/-- The scenario of the specification: from watermark 5 the batch with ids
6, 7, 8 is appended whole and the watermark becomes 8; the next batch with ids
7, 9 appends only 9 and the watermark becomes 9. -/
theorem exact_on_ascending_witness :
    (appended (tick (demoEnv (some renderPayload)) (demoState 5)
        (.ok [⟨6, "six"⟩, ⟨7, "seven"⟩, ⟨8, "eight"⟩]))).map Msg.id = [6, 7, 8] ∧
    (tick (demoEnv (some renderPayload)) (demoState 5)
        (.ok [⟨6, "six"⟩, ⟨7, "seven"⟩, ⟨8, "eight"⟩])).lastMsgId = 8 ∧
    (appended (tick (demoEnv (some renderPayload))
        (tick (demoEnv (some renderPayload)) (demoState 5)
          (.ok [⟨6, "six"⟩, ⟨7, "seven"⟩, ⟨8, "eight"⟩]))
        (.ok [⟨7, "seven"⟩, ⟨9, "nine"⟩]))).map Msg.id = [6, 7, 8, 9] ∧
    (tick (demoEnv (some renderPayload))
        (tick (demoEnv (some renderPayload)) (demoState 5)
          (.ok [⟨6, "six"⟩, ⟨7, "seven"⟩, ⟨8, "eight"⟩]))
        (.ok [⟨7, "seven"⟩, ⟨9, "nine"⟩])).lastMsgId = 9 := by
  have h1 := exact_on_ascending (demoEnv (some renderPayload)) (demoState 5)
    [⟨6, "six"⟩, ⟨7, "seven"⟩, ⟨8, "eight"⟩] demoSurface renderPayload
    (by decide) rfl rfl
    (by
      intro m hm
      exact ⟨m.payload, rfl, by
        simp at hm
        rcases hm with h | h | h <;> subst h <;> decide⟩)
  have h2 := exact_on_ascending (demoEnv (some renderPayload))
    (tick (demoEnv (some renderPayload)) (demoState 5)
      (.ok [⟨6, "six"⟩, ⟨7, "seven"⟩, ⟨8, "eight"⟩]))
    [⟨7, "seven"⟩, ⟨9, "nine"⟩] demoSurfaceAfter renderPayload
    (by decide) rfl rfl
    (by
      intro m hm
      exact ⟨m.payload, rfl, by
        simp at hm
        rcases hm with h | h <;> subst h <;> decide⟩)
  refine ⟨?_, ?_, ?_, ?_⟩
  · unfold appended
    rw [h1.1]
    decide
  · rw [h1.2.1]
    decide
  · unfold appended
    rw [h2.1, h1.1, h1.2.1]
    decide
  · rw [h2.2.1, h1.2.1]
    decide

/-- The sample page without a render function: the batch with ids 3, 1 leaves
the insertion log empty and the watermark at 3. -/
theorem missing_render_witness :
    (demoEnv none).renderMsg = none ∧
    getElementById (demoState 0) = some demoSurface ∧
    (tick (demoEnv none) (demoState 0) (.ok [⟨3, "c"⟩, ⟨1, "a"⟩])).insertLog = [] ∧
    (tick (demoEnv none) (demoState 0) (.ok [⟨3, "c"⟩, ⟨1, "a"⟩])).lastMsgId = 3 := by
  have h := missing_render (demoEnv none) (demoState 0) [⟨3, "c"⟩, ⟨1, "a"⟩] demoSurface rfl rfl
  refine ⟨rfl, rfl, ?_, ?_⟩
  · rw [h.1]
    rfl
  · rw [h.2.1]
    decide

/-- C2, as stated, fails.  From the initial state, one tick without a render
function on a batch with the single id 1 raises the watermark to 1 and appends
nothing, so the watermark is not the maximum id among the appended
messages. -/
theorem watermark_not_max_appended :
    (run (initial (some demoSurface))
        [.response (demoEnv none) (.ok [⟨1, "a"⟩])]).lastMsgId = 1 ∧
    appended (run (initial (some demoSurface))
        [.response (demoEnv none) (.ok [⟨1, "a"⟩])]) = [] ∧
    (run (initial (some demoSurface))
        [.response (demoEnv none) (.ok [⟨1, "a"⟩])]).lastMsgId ≠
      watermarkAt 0 (appended (run (initial (some demoSurface))
        [.response (demoEnv none) (.ok [⟨1, "a"⟩])])) := by
  decide

/-- C2, amended.  In every state reached from the initial state by any
sequence of events, the watermark is at least the id of every message appended
to the display; and when in every tick the render function exists and
returns a non-empty fragment for each message of the batch, the watermark is
the maximum id among the appended messages (0 when none was appended). -/
theorem watermark_bounds_appended (chatMessages : Option Element) (events : List Event) :
    (∀ m ∈ appended (run (initial chatMessages) events),
      m.id ≤ (run (initial chatMessages) events).lastMsgId) ∧
    ((∀ e ∈ events, Renders e) →
      (run (initial chatMessages) events).lastMsgId =
        watermarkAt 0 (appended (run (initial chatMessages) events))) :=
  ⟨run_insertLog_bound (initial chatMessages) events (fun _ hm => by cases hm),
    fun hr => run_watermark_is_max (initial chatMessages) events hr rfl⟩

/-- Two rendered batches on the sample page, the second with a stale id: the
watermark 9 is the maximum of the appended ids 6, 7, 8, 9. -/
theorem watermark_bounds_appended_witness :
    (∀ e ∈ [Event.response (demoEnv (some renderPayload))
          (.ok [⟨6, "six"⟩, ⟨7, "seven"⟩, ⟨8, "eight"⟩]),
        Event.response (demoEnv (some renderPayload)) (.ok [⟨7, "seven"⟩, ⟨9, "nine"⟩])],
      Renders e) ∧
    (run (initial (some demoSurface))
      [.response (demoEnv (some renderPayload)) (.ok [⟨6, "six"⟩, ⟨7, "seven"⟩, ⟨8, "eight"⟩]),
        .response (demoEnv (some renderPayload)) (.ok [⟨7, "seven"⟩, ⟨9, "nine"⟩])]).lastMsgId =
      watermarkAt 0 (appended (run (initial (some demoSurface))
        [.response (demoEnv (some renderPayload))
            (.ok [⟨6, "six"⟩, ⟨7, "seven"⟩, ⟨8, "eight"⟩]),
          .response (demoEnv (some renderPayload)) (.ok [⟨7, "seven"⟩, ⟨9, "nine"⟩])])) := by
  have hr : ∀ e ∈ [Event.response (demoEnv (some renderPayload))
        (.ok [⟨6, "six"⟩, ⟨7, "seven"⟩, ⟨8, "eight"⟩]),
      Event.response (demoEnv (some renderPayload)) (.ok [⟨7, "seven"⟩, ⟨9, "nine"⟩])],
      Renders e := by
    intro e he
    simp only [List.mem_cons, List.mem_singleton, List.not_mem_nil, or_false] at he
    rcases he with h | h <;> subst h
    · refine ⟨renderPayload, rfl, fun m hm => ⟨m.payload, rfl, ?_⟩⟩
      simp at hm
      rcases hm with h | h | h <;> subst h <;> decide
    · refine ⟨renderPayload, rfl, fun m hm => ⟨m.payload, rfl, ?_⟩⟩
      simp at hm
      rcases hm with h | h <;> subst h <;> decide
  exact ⟨hr, (watermark_bounds_appended (some demoSurface) _).2 hr⟩

/-- C6, as stated, fails.  On the sample page with watermark 0, a tick whose
render function throws on the only message, of id 1, ends in the catch
handler with the watermark at 1. -/
theorem watermark_moves_when_render_throws :
    (onMessages (demoEnv (some renderThrows)) (demoState 0) [⟨1, "a"⟩]).2 =
      some "render failed" ∧
    (demoState 0).lastMsgId = 0 ∧
    (tick (demoEnv (some renderThrows)) (demoState 0) (.ok [⟨1, "a"⟩])).lastMsgId = 1 ∧
    (tick (demoEnv (some renderThrows)) (demoState 0) (.ok [⟨1, "a"⟩])).lastMsgId ≠
      (demoState 0).lastMsgId := by
  decide

/-- C6, amended.  The loop writes the watermark before it renders the message:
when the success callback throws, the exception comes from the render call on
some message of the batch whose id is above the watermark in force, and the
watermark after the tick is the id of that message, strictly greater than the
watermark before the tick. -/
theorem watermark_after_render_throw (env : Env) (s : State) (batch : List Msg) (err : String)
    (h : (onMessages env s batch).2 = some err) :
    ∃ pre m post render, batch = pre ++ m :: post ∧
      env.renderMsg = some render ∧ render m = .error err ∧
      watermarkAt s.lastMsgId pre < m.id ∧
      (tick env s (.ok batch)).lastMsgId = m.id ∧
      s.lastMsgId < (tick env s (.ok batch)).lastMsgId := by
  obtain ⟨el, hel, hne, hthrow⟩ := onMessages_throw env s batch err h
  obtain ⟨pre, m, post, render, h1, h2, h3, h4, h5⟩ :=
    forEach_throw env { s with chatMessages := some (removeSpinner el) } batch err hthrow
  obtain ⟨hw, _⟩ := tick_ok_fields env s batch el hel
  refine ⟨pre, m, post, render, h1, h2, h3, h4, by rw [hw, h5], ?_⟩
  rw [hw, h5]
  exact lt_of_le_of_lt (le_watermarkAt s.lastMsgId pre) h4

/-- The sample page with a render function that throws: the tick on the batch
with ids 2, 4 ends with a watermark above 0. -/
theorem watermark_after_render_throw_witness :
    (onMessages (demoEnv (some renderThrows)) (demoState 0) [⟨2, "b"⟩, ⟨4, "d"⟩]).2 =
      some "render failed" ∧
    (demoState 0).lastMsgId <
      (tick (demoEnv (some renderThrows)) (demoState 0) (.ok [⟨2, "b"⟩, ⟨4, "d"⟩])).lastMsgId := by
  refine ⟨by decide, ?_⟩
  obtain ⟨_, _, _, _, _, _, _, _, _, h⟩ :=
    watermark_after_render_throw (demoEnv (some renderThrows)) (demoState 0)
      [⟨2, "b"⟩, ⟨4, "d"⟩] "render failed" (by decide)
  exact h

/-- C10 (restart safety).  In every state reached from the initial state by
any sequence of `startChatPolling` calls and ticks, either no interval timer
is active and `chatPollInterval` is `null`, or exactly one is active, it fires
every 3000 ms and `chatPollInterval` holds its handle; and two calls in a row
leave only the timer of the second call, under a handle different from the
first. -/
theorem restart_safety (chatMessages : Option Element) (events : List Event) :
    ((run (initial chatMessages) events).timers = [] ∧
        (run (initial chatMessages) events).chatPollInterval = none ∨
      ∃ t, (run (initial chatMessages) events).timers = [t] ∧
        (run (initial chatMessages) events).chatPollInterval = some t.handle ∧
        t.delay = 3000) ∧
    (∀ first second, ∃ t1 t2,
      (startChatPolling first (run (initial chatMessages) events)).timers = [t1] ∧
      (startChatPolling second
        (startChatPolling first (run (initial chatMessages) events))).timers = [t2] ∧
      (startChatPolling second
        (startChatPolling first (run (initial chatMessages) events))).chatPollInterval =
          some t2.handle ∧
      t1.handle ≠ t2.handle ∧ t1.channelId = first ∧ t2.channelId = second ∧
      t2.delay = 3000) := by
  have hinv := run_inOrder (initial chatMessages) events (initial_inOrder chatMessages)
  refine ⟨?_, ?_⟩
  · obtain ⟨_, h | ⟨t, h1, h2, h3, _, _⟩⟩ := hinv
    · exact Or.inl h
    · exact Or.inr ⟨t, h1, h2, h3⟩
  · intro first second
    obtain ⟨a1, _, a3⟩ := startChatPolling_timers first _ hinv
    obtain ⟨b1, b2, _⟩ :=
      startChatPolling_timers second _ (startChatPolling_inOrder first _ hinv)
    refine ⟨_, _, a1, b1, b2, ?_, rfl, rfl, rfl⟩
    show (run (initial chatMessages) events).nextHandle ≠
      (startChatPolling first (run (initial chatMessages) events)).nextHandle
    rw [a3]
    exact Nat.ne_of_lt (Nat.lt_succ_self _)

end ChatPolling
